import Mathlib

/-!
Shallow embedding of the imsplay playback adapter layer
(`src/wasm/adplug/adapter.cpp` and `src/wasm/libopenmpt/adapter.cpp`)
together with theorems settling the specification claims.

Conventions of the embedding:
* C strings, filenames and metadata strings are modelled as
  `List Char` (only contents, truncation and lengths matter).
* Byte buffers are `List Nat` (byte values; the adapter layer never
  inspects sample/byte contents, only moves and sizes them).
* `float` / `double` arithmetic of the scheduling algorithm is modelled
  by exact rational arithmetic (`ℚ`); `static_cast` to an integer type
  is modelled by truncation toward zero.
* Nullable pointers become `Option`; the opaque synthesis engine
  (`CPlayer` from adplug) is modelled as an oracle structure giving the
  results of its `update` / `getrefresh` / `songlength` calls, per the
  spec's black-box contract for the wrapped libraries.
* The `while` loop of `emu_compute_audio_samples` is given a fuel
  parameter; `none` means the fuel was exhausted before the loop ended.
-/

/-! ## Virtual File Store (adplug adapter, `g_files` and helpers) -/

/-- A filename, as the character list of a C `std::string`. -/
abbrev Name := List Char

/-- File contents (`FileData.data` with its `size`): the stored bytes. -/
abbrev Bytes := List Nat

/-- The `g_files` map: `std::map<std::string, FileData>`, modelled as an
association list kept sorted by key (the iteration order of `std::map`). -/
abbrev Store := List (Name × Bytes)

/-- Lowercase one character, as the loop body of `toLower` in
`adapter.cpp` does (`'A'..'Z'` mapped to `'a'..'z'`, all else kept). -/
def toLowerChar (c : Char) : Char :=
  if 'A' ≤ c ∧ c ≤ 'Z' then Char.ofNat (c.toNat - 'A'.toNat + 'a'.toNat) else c

/-- `toLower`: lowercase a filename character-wise. -/
def toLower (s : Name) : Name := s.map toLowerChar

/-- `getFilename`: the suffix of a path after the last `'/'` or `'\\'`
(`find_last_of("/\\")` then `substr(pos + 1)`); the whole string when no
separator occurs. -/
def getFilename (path : Name) : Name :=
  path.foldl (fun acc c => if c = '/' ∨ c = '\\' then [] else acc ++ [c]) []

/-- `g_files.find(k)`: the value stored under the exact key `k`. -/
def storeFind (store : Store) (k : Name) : Option Bytes :=
  match store.find? (fun p => p.1 = k) with
  | some p => some p.2
  | none => none

/-- Strict lexicographic order on filenames: the ordering of
`std::map<std::string, _>` keys. -/
def nameLt : Name → Name → Bool
  | [], [] => false
  | [], _ :: _ => true
  | _ :: _, [] => false
  | c :: cs, d :: ds =>
    if c.toNat < d.toNat then true
    else if d.toNat < c.toNat then false
    else nameLt cs ds

/-- Insert (or replace) a key in the sorted store: the combined effect of
`g_files.erase` of an existing entry followed by `g_files[filename] = ...`
in `emu_add_file`. -/
def storeInsert : Store → Name → Bytes → Store
  | [], k, v => [(k, v)]
  | (k', v') :: rest, k, v =>
    if k = k' then (k, v) :: rest
    else if nameLt k k' then (k, v) :: (k', v') :: rest
    else (k', v') :: storeInsert rest k v

namespace CProvider_Memory

/-- `CProvider_Memory::open`, resolution part: exact lookup, then lookup
of the path-stripped name, then the linear scan comparing lowercased
stripped stored keys with the lowercased stripped requested name (the
scan re-finds the matching key in the map, as the code does).  The data
copied into the returned `binisstream` is exactly the resolved entry's
bytes, so the returned value stands for the stream's contents; `none` is
the `nullptr` stream. -/
def openFile (store : Store) (filename : Name) : Option Bytes :=
  let it := storeFind store filename
  let it := match it with
    | some v => some v
    | none => storeFind store (getFilename filename)
  match it with
  | some v => some v
  | none =>
    let lowerName := toLower (getFilename filename)
    match store.find? (fun p => toLower (getFilename p.1) = lowerName) with
    | some p => storeFind store p.1
    | none => none

end CProvider_Memory

/-- Tier (a) of the spec's `resolve`: exact key match. -/
def tierExact (store : Store) (filename : Name) : Option Bytes :=
  storeFind store filename

/-- Tier (b) of the spec's `resolve`: exact match on the requested name
with any directory prefix stripped. -/
def tierStripped (store : Store) (filename : Name) : Option Bytes :=
  storeFind store (getFilename filename)

/-- Tier (c) of the spec's `resolve`: case-insensitive match of the
stripped requested name against the stripped stored keys; the first
matching entry's bytes are returned. -/
def tierCaseless (store : Store) (filename : Name) : Option Bytes :=
  match store.find? (fun p => toLower (getFilename p.1) = toLower (getFilename filename)) with
  | some p => some p.2
  | none => none

/-- The spec's three-tier `resolve`, stated from its words: tiers tried
in order (a), (b), (c); the first tier that matches wins and no further
tier is tried; `none` when no tier matches. -/
def resolveSpec (store : Store) (filename : Name) : Option Bytes :=
  match tierExact store filename with
  | some v => some v
  | none =>
    match tierStripped store filename with
    | some v => some v
    | none => tierCaseless store filename

/-! ### Store lemmas -/

theorem storeFind_of_find?_keyPred (f : Name → Prop) [DecidablePred f]
    (store : Store) (p : Name × Bytes)
    (h : store.find? (fun q => decide (f q.1)) = some p) :
    storeFind store p.1 = some p.2 := by
  induction store with
  | nil => simp at h
  | cons hd tl ih =>
    rw [List.find?] at h
    by_cases hf : f hd.1
    · simp [hf] at h
      subst h
      simp [storeFind, List.find?]
    · simp [hf] at h
      have hp : f p.1 := by
        have := List.find?_some h
        simpa using this
      have hne : ¬(hd.1 = p.1) := fun he => hf (he ▸ hp)
      have := ih h
      simp only [storeFind, List.find?] at this ⊢
      simp [hne]
      simpa [storeFind] using this

theorem openFile_eq_resolveSpec (store : Store) (filename : Name) :
    CProvider_Memory.openFile store filename = resolveSpec store filename := by
  unfold CProvider_Memory.openFile resolveSpec tierExact tierStripped tierCaseless
  cases h1 : storeFind store filename with
  | some v => simp
  | none =>
    simp only []
    cases h2 : storeFind store (getFilename filename) with
    | some v => simp
    | none =>
      simp only []
      cases h3 : store.find?
          (fun p => toLower (getFilename p.1) = toLower (getFilename filename)) with
      | some p =>
        simp only [h3]
        exact storeFind_of_find?_keyPred
          (fun k => toLower (getFilename k) = toLower (getFilename filename)) store p h3
      | none => simp [h3]

/-! ## Tick-accumulator session (adplug adapter global state) -/

/-- The opaque adplug `CPlayer`, modelled as an oracle per the spec's
black-box contract: `ticks n` gives the result of the `n`-th `update()`
call since load (`true` = still playing) together with the value
`getrefresh()` returns right after that call; `refresh0` is the refresh
rate before any update; `songlength` and `getsubsongs` are the reported
song data; `internalPos` stands for the player's internal playback
position moved by `seek`/`rewind`. -/
structure Player where
  ticks : ℕ → Bool × ℚ
  refresh0 : ℚ
  internalPos : ℕ
  title : Name
  author : Name
  ptype : Name
  desc : Name
  subsongs : ℕ
  songlength : ℤ → ℕ

/-- `CPlayer::getrefresh()` when `tick` updates have happened so far. -/
def Player.getrefresh (p : Player) (tick : ℕ) : ℚ :=
  match tick with
  | 0 => p.refresh0
  | n + 1 => (p.ticks n).2

/-- The adplug adapter's global state: the `g_*` variables of
`src/wasm/adplug/adapter.cpp`.  `opl` and `audioBuffer` record whether
`g_opl` / `g_audioBuffer` are non-null; sample contents are not
modelled, only the buffer's byte length. -/
structure EmuState where
  opl : Bool
  player : Option Player
  sampleRate : ℕ
  audioBuffer : Bool
  audioBufferLength : ℕ
  currentPosition : ℕ
  maxPosition : ℕ
  sampleAccumulator : ℚ
  totalSamplesGenerated : ℕ
  currentTick : ℕ
  files : Store
  title : Name
  author : Name
  ptype : Name
  desc : Name
  loopEnabled : Bool

/-- `AUDIO_BUFFER_SIZE` (samples per channel). -/
def AUDIO_BUFFER_SIZE : ℕ := 512

/-- The process-start state: all globals at their static initializers. -/
def emptyEmuState : EmuState :=
  { opl := false, player := none, sampleRate := 49716, audioBuffer := false,
    audioBufferLength := 0, currentPosition := 0, maxPosition := 0,
    sampleAccumulator := 0, totalSamplesGenerated := 0, currentTick := 0,
    files := [], title := [], author := [], ptype := [], desc := [],
    loopEnabled := false }

/-- `static_cast<int>` of a rational-valued `float`: truncation toward
zero. -/
def truncQ (q : ℚ) : ℤ :=
  if 0 ≤ q then ⌊q⌋ else -⌊-q⌋

/-- The body of `getSamplesPerTick` after the null-player check:
substitute 70 Hz when the reported refresh rate is non-positive, then
divide the sample rate by it. -/
def samplesPerTickQ (sampleRate : ℕ) (refreshRate : ℚ) : ℚ :=
  let r := if refreshRate ≤ 0 then (70 : ℚ) else refreshRate
  (sampleRate : ℚ) / r

/-- `getSamplesPerTick()`: 0 with no player, otherwise
`g_sampleRate / getrefresh()` with the 70 Hz substitution. -/
def getSamplesPerTick (s : EmuState) : ℚ :=
  match s.player with
  | none => 0
  | some p => samplesPerTickQ s.sampleRate (p.getrefresh s.currentTick)

/-- `emu_get_refresh_rate()`: 70 with no player, otherwise the player's
refresh rate with 70 substituted when it is not positive. -/
def emu_get_refresh_rate (s : EmuState) : ℚ :=
  match s.player with
  | none => 70
  | some p =>
    let rate := p.getrefresh s.currentTick
    if 0 < rate then rate else 70

/-- The loop-local variables of `emu_compute_audio_samples` together with
the globals the loop mutates. -/
structure LoopSt where
  sg : ℕ
  acc : ℚ
  tick : ℕ

/-- Result of one iteration of the `while` loop: continue looping, or
leave the loop (`ended = true` for the early `return 1` when `update()`
reports the song over, `false` for a full block). -/
inductive IterResult where
  | next (ls : LoopSt)
  | done (ended : Bool) (ls : LoopSt)

/-- Second half of the loop body (`if (samplesGenerated < maxSamples)`):
run one `update()` tick — leaving the loop with the ended signal when it
reports the song over, otherwise re-deriving the per-tick quota from the
refresh rate read after the update and adding it to the accumulator —
or leave the loop with a full block. -/
def computeIterTick (ticks : ℕ → Bool × ℚ) (sampleRate : ℕ) (ls : LoopSt) : IterResult :=
  if ls.sg < AUDIO_BUFFER_SIZE then
    if (ticks ls.tick).1 then
      .next ⟨ls.sg, ls.acc + samplesPerTickQ sampleRate (ticks ls.tick).2, ls.tick + 1⟩
    else
      .done true ⟨ls.sg, ls.acc, ls.tick + 1⟩
  else
    .done false ⟨ls.sg, ls.acc, ls.tick⟩

/-- One iteration of the `while (samplesGenerated < maxSamples)` loop of
`emu_compute_audio_samples`: drain `min(trunc(accumulator), remaining)`
samples when the accumulator holds at least one, then hand over to the
tick-processing half. -/
def computeIter (ticks : ℕ → Bool × ℚ) (sampleRate : ℕ) (ls : LoopSt) : IterResult :=
  if 0 < truncQ ls.acc then
    let toGenerate := min (truncQ ls.acc).toNat (AUDIO_BUFFER_SIZE - ls.sg)
    computeIterTick ticks sampleRate
      ⟨ls.sg + toGenerate, ls.acc - (toGenerate : ℕ), ls.tick⟩
  else
    computeIterTick ticks sampleRate ls

/-- The fueled `while` loop; `none` when the fuel runs out first. -/
def computeLoop (ticks : ℕ → Bool × ℚ) (sampleRate : ℕ) :
    ℕ → LoopSt → Option (Bool × LoopSt)
  | 0, _ => none
  | fuel + 1, ls =>
    match computeIter ticks sampleRate ls with
    | .next ls' => computeLoop ticks sampleRate fuel ls'
    | .done e ls' => some (e, ls')

/-- The position estimate of `emu_compute_audio_samples`:
`static_cast<unsigned long>((double)total / sampleRate * 1000.0)`. -/
def positionMsOf (total sampleRate : ℕ) : ℕ :=
  (⌊(total : ℚ) / (sampleRate : ℚ) * 1000⌋).toNat

/-- `emu_compute_audio_samples()`: status `(0 = playing, 1 = ended)` and
the updated global state.  On the early-out (no player, no OPL or no
buffer) the state is returned untouched; on the song-ended exit only the
accumulator, tick counter and buffer length are written back; on a full
block the total-rendered counter and the position estimate are updated
as well. -/
def emu_compute_audio_samples (fuel : ℕ) (s : EmuState) : Option (ℤ × EmuState) :=
  match s.player with
  | none => some (1, s)
  | some p =>
    if s.opl = false ∨ s.audioBuffer = false then some (1, s)
    else
      match computeLoop p.ticks s.sampleRate fuel ⟨0, s.sampleAccumulator, s.currentTick⟩ with
      | none => none
      | some (ended, ls) =>
        if ended then
          some (1, { s with sampleAccumulator := ls.acc, currentTick := ls.tick,
                            audioBufferLength := ls.sg * 2 * 2 })
        else
          some (0, { s with sampleAccumulator := ls.acc, currentTick := ls.tick,
                            totalSamplesGenerated := s.totalSamplesGenerated + ls.sg,
                            currentPosition :=
                              positionMsOf (s.totalSamplesGenerated + ls.sg) s.sampleRate,
                            audioBufferLength := ls.sg * 2 * 2 })

/-- `emu_init(sampleRate)`: tear down player/OPL/buffer, clear the file
store, pick the sample rate (49716 when the argument is not positive),
recreate the OPL and the zeroed audio buffer, and reset all clocks.
(`new` cannot return null, so the `!g_opl` failure branch is dead and
init always returns 0.)  Metadata strings and the loop flag are not
touched. -/
def emu_init (sampleRate : ℤ) (s : EmuState) : ℤ × EmuState :=
  (0, { s with
    player := none, opl := true, audioBuffer := true,
    files := [],
    sampleRate := if 0 < sampleRate then sampleRate.toNat else 49716,
    audioBufferLength := 0,
    currentPosition := 0, maxPosition := 0,
    sampleAccumulator := 0, totalSamplesGenerated := 0, currentTick := 0 })

/-- `emu_teardown()`: release player, OPL, buffer and file entries and
zero buffer length and positions.  The accumulator, tick counter,
total-rendered counter, metadata strings and loop flag are not reset. -/
def emu_teardown (s : EmuState) : EmuState :=
  { s with player := none, opl := false, audioBuffer := false,
           files := [], audioBufferLength := 0,
           currentPosition := 0, maxPosition := 0 }

/-- `emu_add_file(filename, data, size)`: reject a null filename, null
data or non-positive size with -1 and no state change; otherwise replace
any entry under the exact name with a private copy of the first `size`
bytes and return 0. -/
def emu_add_file (filename : Option Name) (data : Option Bytes) (size : ℤ)
    (s : EmuState) : ℤ × EmuState :=
  match filename, data with
  | some fn, some d =>
    if size ≤ 0 then (-1, s)
    else (0, { s with files := storeInsert s.files fn (d.take size.toNat) })
  | _, _ => (-1, s)

/-- Capacities of the adplug metadata globals (`sizeof(g_title) - 1`
characters for title/author/type, `sizeof(g_desc) - 1` for the
description): `strncpy` into the zeroed globals stores the source
truncated to that many characters. -/
def EMU_TEXT_CAP : ℕ := 255

/-- Capacity of `g_desc` in characters. -/
def EMU_DESC_CAP : ℕ := 1023

/-- `emu_load_file(filename, data, size)`: reject missing OPL, null
filename, null data or non-positive size with -1 untouched; otherwise
delete any previous player, reset the timing state, register the file,
and run the `CAdPlug::factory` (an oracle here: `some` player or
`none`).  On factory failure return -1 with the player left torn down
and metadata untouched; on success fill the metadata by truncating
`strncpy`, set the song length and zero the position. -/
def emu_load_file (filename : Option Name) (data : Option Bytes) (size : ℤ)
    (factory : Option Player) (s : EmuState) : ℤ × EmuState :=
  match filename, data with
  | some fn, some d =>
    if s.opl = false ∨ size ≤ 0 then (-1, s)
    else
      let s1 := { s with player := none,
                         sampleAccumulator := 0, totalSamplesGenerated := 0,
                         currentTick := 0 }
      let s2 := (emu_add_file (some fn) (some d) size s1).2
      match factory with
      | none => (-1, s2)
      | some p =>
        (0, { s2 with player := some p,
                      title := p.title.take EMU_TEXT_CAP,
                      author := p.author.take EMU_TEXT_CAP,
                      ptype := p.ptype.take EMU_TEXT_CAP,
                      desc := p.desc.take EMU_DESC_CAP,
                      maxPosition := p.songlength (-1),
                      currentPosition := 0 })
  | _, _ => (-1, s)

/-- `emu_get_current_position()`. -/
def emu_get_current_position (s : EmuState) : ℕ := s.currentPosition

/-- `emu_seek_position(ms)`: with a player, forward the seek to the
player (which moves its internal position) and set the reported position
to `ms`; a no-op otherwise. -/
def emu_seek_position (ms : ℕ) (s : EmuState) : EmuState :=
  match s.player with
  | none => s
  | some p =>
    { s with player := some { p with internalPos := ms }, currentPosition := ms }

/-- `emu_rewind()`: with a player, rewind it and zero the reported
position, the tick counter, the accumulator and the total-rendered
counter; a no-op otherwise. -/
def emu_rewind (s : EmuState) : EmuState :=
  match s.player with
  | none => s
  | some p =>
    { s with player := some { p with internalPos := 0 },
             currentPosition := 0, currentTick := 0,
             sampleAccumulator := 0, totalSamplesGenerated := 0 }

/-! ## Frame-pull session (libopenmpt adapter global state) -/

/-- The opaque `openmpt_module`, modelled by its documented interface
contract (the library is an external collaborator the spec treats as a
black box): `positionSeconds` is the position that
`openmpt_module_set_position_seconds` stores and
`openmpt_module_get_position_seconds` reports; `repeatCount` the value
last set; `durationSeconds` the reported duration; the metadata queries
return `some` string or `none` (a null pointer); `render` is the frame
count the next `openmpt_module_read_interleaved_float_stereo` call
produces. -/
structure MptModule where
  positionSeconds : ℚ
  repeatCount : ℤ
  durationSeconds : ℚ
  mtitle : Option Name
  martist : Option Name
  mtypeLong : Option Name
  render : ℕ

/-- The libopenmpt adapter's global state: the `g_*` variables of
`src/wasm/libopenmpt/adapter.cpp`. -/
structure MptState where
  module : Option MptModule
  sampleRate : ℕ
  audioBuffer : Bool
  audioBufferFrames : ℕ
  repeatCount : ℤ
  title : Name
  artist : Name
  typeStr : Name

/-- `AUDIO_BUFFER_FRAMES` of the libopenmpt adapter. -/
def AUDIO_BUFFER_FRAMES : ℕ := 1024

/-- Capacity in characters of `g_title` / `g_artist` / `g_type` in the
libopenmpt adapter (`sizeof - 1`, with explicit null termination). -/
def MPT_TEXT_CAP : ℕ := 255

/-- The process-start state of the libopenmpt adapter. -/
def emptyMptState : MptState :=
  { module := none, sampleRate := 48000, audioBuffer := false,
    audioBufferFrames := 0, repeatCount := 0,
    title := [], artist := [], typeStr := [] }

/-- `mpt_init(sampleRate)`: destroy any module, free and reallocate the
audio buffer (allocation is modelled as succeeding; `malloc` failure is
the dead -1 branch), pick the sample rate (48000 when the argument is
not positive) and clear the metadata strings. -/
def mpt_init (sampleRate : ℤ) (s : MptState) : ℤ × MptState :=
  (0, { s with module := none, audioBuffer := true, audioBufferFrames := 0,
               sampleRate := if 0 < sampleRate then sampleRate.toNat else 48000,
               title := [], artist := [], typeStr := [] })

/-- `mpt_teardown()`: destroy the module, free the buffer, zero the
buffer frame count.  Metadata strings are not cleared. -/
def mpt_teardown (s : MptState) : MptState :=
  { s with module := none, audioBuffer := false, audioBufferFrames := 0 }

/-- One metadata field assignment of `mpt_load_file`: `strncpy`
truncation when the query returned a string, empty string when it
returned null. -/
def mptMetaField (v : Option Name) : Name :=
  match v with
  | some t => t.take MPT_TEXT_CAP
  | none => []

/-- `mpt_load_file(filename, data, size)`: reject null data or
non-positive size with -1 and no state change (the filename argument is
never read, not even checked for null); otherwise destroy any existing
module and run `openmpt_module_create_from_memory2` (an oracle here: the
created module or `none`).  On creation failure return -1 with the old
module already destroyed; on success push the stored repeat count into
the module and fill the metadata fields. -/
def mpt_load_file (filename : Option Name) (data : Option Bytes) (size : ℤ)
    (create : Option MptModule) (s : MptState) : ℤ × MptState :=
  match data with
  | none => (-1, s)
  | some _ =>
    if size ≤ 0 then (-1, s)
    else
      let s1 := { s with module := none }
      match create with
      | none => (-1, s1)
      | some m =>
        (0, { s1 with module := some { m with repeatCount := s.repeatCount },
                      title := mptMetaField m.mtitle,
                      artist := mptMetaField m.martist,
                      typeStr := mptMetaField m.mtypeLong })

/-- `mpt_compute_audio_samples()`: with no module or no buffer, zero the
buffer frame count and report 1 (ended); otherwise read up to
`AUDIO_BUFFER_FRAMES` frames, record how many were produced, and report
1 exactly when zero frames came back. -/
def mpt_compute_audio_samples (s : MptState) : ℤ × MptState :=
  match s.module with
  | none => (1, { s with audioBufferFrames := 0 })
  | some m =>
    if s.audioBuffer = false then (1, { s with audioBufferFrames := 0 })
    else
      let framesRead := m.render
      if framesRead = 0 then (1, { s with audioBufferFrames := framesRead })
      else (0, { s with audioBufferFrames := framesRead })

/-- `mpt_get_position_seconds()`: forwarded to the module, 0 with none
loaded. -/
def mpt_get_position_seconds (s : MptState) : ℚ :=
  match s.module with
  | none => 0
  | some m => m.positionSeconds

/-- `mpt_rewind()`: `openmpt_module_set_position_seconds(module, 0.0)`
when a module is loaded, a no-op otherwise. -/
def mpt_rewind (s : MptState) : MptState :=
  match s.module with
  | none => s
  | some m => { s with module := some { m with positionSeconds := 0 } }

/-! ## C1: three-tier lookup in the Virtual File Store -/

/-- Shorthand for writing filename literals. -/
def nm (s : String) : Name := s.toList

/-- C1.  `CProvider_Memory::open` performs exactly the spec's three
lookup tiers in order — exact key, stripped name, case-insensitive
stripped comparison — with the first matching tier winning (the
refinement equality with `resolveSpec`); an exact entry is returned
whatever other entries exist; and when no tier matches, `open` returns
the null stream. -/
theorem open_three_tier_lookup :
    (∀ store filename,
      CProvider_Memory.openFile store filename = resolveSpec store filename) ∧
    (∀ store filename b, tierExact store filename = some b →
      CProvider_Memory.openFile store filename = some b) ∧
    (∀ store filename, tierExact store filename = none →
      tierStripped store filename = none → tierCaseless store filename = none →
      CProvider_Memory.openFile store filename = none) := by
  refine ⟨openFile_eq_resolveSpec, ?_, ?_⟩
  · intro store filename b h
    rw [openFile_eq_resolveSpec, resolveSpec, h]
  · intro store filename ha hb hc
    rw [openFile_eq_resolveSpec, resolveSpec, ha, hb, hc]

/-- Witness for C1 at concrete inputs: an exact entry `"X.bnk"` wins over
the path-prefixed `"SUB/X.bnk"` and the differently-cased `"x.BNK"`, and
a name no tier matches resolves to the null stream. -/
theorem open_three_tier_lookup_witness :
    CProvider_Memory.openFile
      [(nm "SUB/X.bnk", [2]), (nm "X.bnk", [1]), (nm "x.BNK", [3])] (nm "X.bnk")
      = some [1] ∧
    CProvider_Memory.openFile [(nm "a", [1])] (nm "b") = none :=
  ⟨open_three_tier_lookup.2.1
      [(nm "SUB/X.bnk", [2]), (nm "X.bnk", [1]), (nm "x.BNK", [3])] (nm "X.bnk")
      [1] (by decide),
   open_three_tier_lookup.2.2 [(nm "a", [1])] (nm "b")
      (by decide) (by decide) (by decide)⟩

/-! ## C2: accumulator invariant of the scheduling loop -/

/-- The loop state carried by an iteration result. -/
def iterSt : IterResult → LoopSt
  | .next ls => ls
  | .done _ ls => ls

theorem truncQ_of_nonneg {q : ℚ} (h : 0 ≤ q) : truncQ q = ⌊q⌋ :=
  if_pos h

theorem samplesPerTickQ_nonneg (sampleRate : ℕ) (r : ℚ) :
    0 ≤ samplesPerTickQ sampleRate r := by
  unfold samplesPerTickQ
  apply div_nonneg (by positivity)
  by_cases hr : r ≤ 0
  · simp [hr]
  · simp [hr]; linarith

theorem samplesPerTickQ_pos (sampleRate : ℕ) (r : ℚ) (h : 0 < sampleRate) :
    0 < samplesPerTickQ sampleRate r := by
  unfold samplesPerTickQ
  apply div_pos (by exact_mod_cast h)
  by_cases hr : r ≤ 0
  · simp [hr]
  · simp [hr]; linarith

theorem computeIterTick_spec (ticks : ℕ → Bool × ℚ) (sampleRate : ℕ) (ls : LoopSt) :
    (iterSt (computeIterTick ticks sampleRate ls)).sg = ls.sg ∧
    ((iterSt (computeIterTick ticks sampleRate ls)).acc = ls.acc ∨
     (iterSt (computeIterTick ticks sampleRate ls)).acc
       = ls.acc + samplesPerTickQ sampleRate (ticks ls.tick).2) := by
  unfold computeIterTick
  split
  · split
    · exact ⟨rfl, Or.inr rfl⟩
    · exact ⟨rfl, Or.inl rfl⟩
  · exact ⟨rfl, Or.inl rfl⟩

/-- One loop iteration, started with a non-negative accumulator, renders
some `g` samples with `g ≤ ⌊accumulator⌋`, and changes the accumulator
to `accumulator - g + q` where `q` is zero or one tick's quota; the
result stays non-negative. -/
theorem computeIter_acc_spec (ticks : ℕ → Bool × ℚ) (sampleRate : ℕ) (ls : LoopSt)
    (h : 0 ≤ ls.acc) :
    ∃ (g : ℕ) (q : ℚ),
      (g : ℤ) ≤ ⌊ls.acc⌋ ∧
      (q = 0 ∨ q = samplesPerTickQ sampleRate (ticks ls.tick).2) ∧
      (iterSt (computeIter ticks sampleRate ls)).sg = ls.sg + g ∧
      (iterSt (computeIter ticks sampleRate ls)).acc = ls.acc - g + q ∧
      0 ≤ (iterSt (computeIter ticks sampleRate ls)).acc := by
  unfold computeIter
  by_cases h0 : 0 < truncQ ls.acc
  · rw [if_pos h0]
    set g := min (truncQ ls.acc).toNat (AUDIO_BUFFER_SIZE - ls.sg) with hg
    have hgle : (g : ℤ) ≤ ⌊ls.acc⌋ := by
      have h1 : (g : ℤ) ≤ ((truncQ ls.acc).toNat : ℤ) := by
        exact_mod_cast Nat.min_le_left _ _
      rwa [Int.toNat_of_nonneg (le_of_lt h0), truncQ_of_nonneg h] at h1
    have hgq : (g : ℚ) ≤ ls.acc := by
      have h2 : ((g : ℤ) : ℚ) ≤ ((⌊ls.acc⌋ : ℤ) : ℚ) := by exact_mod_cast hgle
      calc (g : ℚ) = ((g : ℤ) : ℚ) := by push_cast; ring
        _ ≤ ((⌊ls.acc⌋ : ℤ) : ℚ) := h2
        _ ≤ ls.acc := Int.floor_le ls.acc
    have hmid : (0 : ℚ) ≤ ls.acc - (g : ℕ) := by
      push_cast
      linarith
    obtain ⟨hsg, hacc⟩ := computeIterTick_spec ticks sampleRate
      ⟨ls.sg + g, ls.acc - (g : ℕ), ls.tick⟩
    rcases hacc with hacc | hacc
    · refine ⟨g, 0, hgle, Or.inl rfl, by simpa using hsg, ?_, ?_⟩
      · rw [hacc]; try push_cast; try ring
      · rw [hacc]; exact hmid
    · refine ⟨g, samplesPerTickQ sampleRate (ticks ls.tick).2, hgle, Or.inr rfl,
        by simpa using hsg, ?_, ?_⟩
      · rw [hacc]; try push_cast; try ring
      · rw [hacc]
        have := samplesPerTickQ_nonneg sampleRate (ticks ls.tick).2
        push_cast at hmid ⊢
        linarith
  · rw [if_neg h0]
    have hfl : (0 : ℤ) ≤ ⌊ls.acc⌋ := Int.floor_nonneg.mpr h
    obtain ⟨hsg, hacc⟩ := computeIterTick_spec ticks sampleRate ls
    rcases hacc with hacc | hacc
    · exact ⟨0, 0, by simpa using hfl, Or.inl rfl, by simpa using hsg,
        by rw [hacc]; norm_num, by rw [hacc]; exact h⟩
    · refine ⟨0, samplesPerTickQ sampleRate (ticks ls.tick).2,
        by simpa using hfl, Or.inr rfl, by simpa using hsg, ?_, ?_⟩
      · rw [hacc]; try push_cast; try ring
      · rw [hacc]
        have := samplesPerTickQ_nonneg sampleRate (ticks ls.tick).2
        linarith

/-- The loop preserves accumulator non-negativity. -/
theorem computeLoop_acc_nonneg (ticks : ℕ → Bool × ℚ) (sampleRate : ℕ) :
    ∀ (fuel : ℕ) (ls : LoopSt), 0 ≤ ls.acc →
    ∀ e ls', computeLoop ticks sampleRate fuel ls = some (e, ls') → 0 ≤ ls'.acc := by
  intro fuel
  induction fuel with
  | zero => intro ls _ e ls' h; simp [computeLoop] at h
  | succ n ih =>
    intro ls hls e ls' h
    rw [computeLoop] at h
    obtain ⟨g, q, _, _, _, _, hnn⟩ := computeIter_acc_spec ticks sampleRate ls hls
    cases hit : computeIter ticks sampleRate ls with
    | next ls1 =>
      rw [hit] at h
      have : 0 ≤ ls1.acc := by rw [hit] at hnn; exact hnn
      exact ih ls1 this e ls' h
    | done e1 ls1 =>
      rw [hit] at h
      have : 0 ≤ ls1.acc := by rw [hit] at hnn; exact hnn
      cases h
      exact this

/-- States reachable through any sequence of `emu_init`,
`emu_load_file`, `emu_rewind` and completed `emu_compute_audio_samples`
calls (an `init` call can start from anything, since it resets the
session wholesale). -/
inductive EmuReachable : EmuState → Prop
  | init (s : EmuState) (sampleRate : ℤ) :
      EmuReachable (emu_init sampleRate s).2
  | load (s : EmuState) (h : EmuReachable s) (fn : Option Name)
      (d : Option Bytes) (sz : ℤ) (factory : Option Player) :
      EmuReachable (emu_load_file fn d sz factory s).2
  | rewind (s : EmuState) (h : EmuReachable s) :
      EmuReachable (emu_rewind s)
  | compute (s : EmuState) (h : EmuReachable s) (fuel : ℕ) (st : ℤ)
      (s' : EmuState) (hc : emu_compute_audio_samples fuel s = some (st, s')) :
      EmuReachable s'

theorem emuReachable_acc_nonneg (s : EmuState) (h : EmuReachable s) :
    0 ≤ s.sampleAccumulator := by
  induction h with
  | init s sampleRate => simp [emu_init]
  | load s h fn d sz factory ih =>
    unfold emu_load_file
    cases fn with
    | none => exact ih
    | some fn' =>
      cases d with
      | none => exact ih
      | some d' =>
        simp only []
        split
        · exact ih
        · split <;> simp only [emu_add_file] <;> split <;> simp
  | rewind s h ih =>
    unfold emu_rewind
    cases hp : s.player with
    | none => simpa using ih
    | some p => simp
  | compute s h fuel st s' hc ih =>
    unfold emu_compute_audio_samples at hc
    cases hp : s.player with
    | none => rw [hp] at hc; cases hc; exact ih
    | some p =>
      rw [hp] at hc
      simp only [] at hc
      by_cases hg : s.opl = false ∨ s.audioBuffer = false
      · rw [if_pos hg] at hc; cases hc; exact ih
      · rw [if_neg hg] at hc
        cases hl : computeLoop p.ticks s.sampleRate fuel
            ⟨0, s.sampleAccumulator, s.currentTick⟩ with
        | none => rw [hl] at hc; cases hc
        | some r =>
          obtain ⟨e, ls⟩ := r
          rw [hl] at hc
          have hnn : 0 ≤ ls.acc :=
            computeLoop_acc_nonneg p.ticks s.sampleRate fuel
              ⟨0, s.sampleAccumulator, s.currentTick⟩ ih e ls hl
          cases e with
          | true => simp only [if_pos rfl] at hc; cases hc; exact hnn
          | false => simp only [Bool.false_eq_true, if_neg] at hc; cases hc; exact hnn

/-- Unfolding step of the fueled loop. -/
theorem computeLoop_succ (ticks : ℕ → Bool × ℚ) (sampleRate fuel : ℕ) (ls : LoopSt) :
    computeLoop ticks sampleRate (fuel + 1) ls =
      match computeIter ticks sampleRate ls with
      | .next ls' => computeLoop ticks sampleRate fuel ls'
      | .done e ls' => some (e, ls') := rfl

/-- `emu_compute_audio_samples` unfolded on a session with a player, an
OPL and a buffer, when the loop fills a full block. -/
theorem emu_compute_of_loop_full (s : EmuState) (p : Player) (fuel : ℕ) (ls : LoopSt)
    (hp : s.player = some p) (ho : s.opl = true) (hb : s.audioBuffer = true)
    (hl : computeLoop p.ticks s.sampleRate fuel
            ⟨0, s.sampleAccumulator, s.currentTick⟩ = some (false, ls)) :
    emu_compute_audio_samples fuel s =
      some (0, { s with sampleAccumulator := ls.acc, currentTick := ls.tick,
                        totalSamplesGenerated := s.totalSamplesGenerated + ls.sg,
                        currentPosition :=
                          positionMsOf (s.totalSamplesGenerated + ls.sg) s.sampleRate,
                        audioBufferLength := ls.sg * 2 * 2 }) := by
  unfold emu_compute_audio_samples
  rw [hp]
  simp only [ho, hb, hl]
  simp

/-- `emu_compute_audio_samples` unfolded when the loop ends with the
song-over signal. -/
theorem emu_compute_of_loop_ended (s : EmuState) (p : Player) (fuel : ℕ) (ls : LoopSt)
    (hp : s.player = some p) (ho : s.opl = true) (hb : s.audioBuffer = true)
    (hl : computeLoop p.ticks s.sampleRate fuel
            ⟨0, s.sampleAccumulator, s.currentTick⟩ = some (true, ls)) :
    emu_compute_audio_samples fuel s =
      some (1, { s with sampleAccumulator := ls.acc, currentTick := ls.tick,
                        audioBufferLength := ls.sg * 2 * 2 }) := by
  unfold emu_compute_audio_samples
  rw [hp]
  simp only [ho, hb, hl]
  simp

/-- A synthetic player for concrete runs: always still playing, refresh
rate 1 Hz (so each tick's quota is the whole sample rate). -/
def demoPlayer : Player :=
  { ticks := fun _ => (true, 1), refresh0 := 1, internalPos := 0,
    title := [], author := [], ptype := [], desc := [],
    subsongs := 1, songlength := fun _ => 0 }

/-- State after `emu_init(49716)` from process start. -/
def demoS1 : EmuState :=
  { emptyEmuState with opl := true, audioBuffer := true, sampleRate := 49716 }

theorem demo_init : (emu_init 49716 emptyEmuState).2 = demoS1 := rfl

/-- State after loading a one-byte file `"a"` with the demo player. -/
def demoS2 : EmuState :=
  { demoS1 with player := some demoPlayer, files := [(nm "a", [0])] }

theorem demo_load :
    (emu_load_file (some (nm "a")) (some [0]) 1 (some demoPlayer) demoS1).2 = demoS2 := by
  simp [emu_load_file, emu_add_file, demoS1, demoS2, demoPlayer, emptyEmuState,
    storeInsert, EMU_TEXT_CAP, EMU_DESC_CAP]

theorem demo_iter1 :
    computeIter demoPlayer.ticks 49716 ⟨0, 0, 0⟩ = .next ⟨0, 49716, 1⟩ := by
  norm_num [computeIter, computeIterTick, truncQ, demoPlayer, samplesPerTickQ,
    AUDIO_BUFFER_SIZE]

theorem demo_iter2 :
    computeIter demoPlayer.ticks 49716 ⟨0, 49716, 1⟩ = .done false ⟨512, 49204, 1⟩ := by
  have ht : truncQ (49716 : ℚ) = 49716 := by
    rw [truncQ, if_pos (by norm_num), Int.floor_eq_iff] <;> norm_num
  norm_num [computeIter, computeIterTick, ht, AUDIO_BUFFER_SIZE]

theorem demo_loop :
    computeLoop demoPlayer.ticks 49716 2 ⟨0, 0, 0⟩ = some (false, ⟨512, 49204, 1⟩) := by
  rw [show (2 : ℕ) = 1 + 1 from rfl, computeLoop_succ, demo_iter1]
  show computeLoop demoPlayer.ticks 49716 1 ⟨0, 49716, 1⟩ = _
  rw [show (1 : ℕ) = 0 + 1 from rfl, computeLoop_succ, demo_iter2]

/-- State after one full 512-sample block from `demoS2`. -/
def demoS3 : EmuState :=
  { demoS2 with sampleAccumulator := 49204, currentTick := 1,
                totalSamplesGenerated := 512,
                currentPosition := positionMsOf 512 49716,
                audioBufferLength := 2048 }

theorem demo_compute :
    emu_compute_audio_samples 2 demoS2 = some (0, demoS3) := by
  have h := emu_compute_of_loop_full demoS2 demoPlayer 2 ⟨512, 49204, 1⟩ rfl rfl rfl
    (by exact demo_loop)
  rw [h]
  rfl

theorem demo_reach3 : EmuReachable demoS3 := by
  have h1 : EmuReachable demoS1 := demo_init ▸ EmuReachable.init emptyEmuState 49716
  have h2 : EmuReachable demoS2 :=
    demo_load ▸ EmuReachable.load demoS1 h1 (some (nm "a")) (some [0]) 1 (some demoPlayer)
  exact EmuReachable.compute demoS2 h2 2 0 demoS3 demo_compute

/-- C2.  For every state reachable by sequences of init, loadFile,
rewind and computeSamples the accumulator is non-negative at the start
of each scheduling step; `accumulator < 1` is not an invariant (a
reachable state violates it); and one loop iteration renders `g ≤
⌊accumulator⌋` samples and changes the accumulator by exactly `-g` plus
either nothing or one tick's quota (`sampleRate` over the substituted
refresh rate), keeping it non-negative. -/
theorem accumulator_invariant :
    (∀ s, EmuReachable s → 0 ≤ s.sampleAccumulator) ∧
    (¬ ∀ s, EmuReachable s → s.sampleAccumulator < 1) ∧
    (∀ (ticks : ℕ → Bool × ℚ) (sampleRate : ℕ) (ls : LoopSt), 0 ≤ ls.acc →
      ∃ (g : ℕ) (q : ℚ),
        (g : ℤ) ≤ ⌊ls.acc⌋ ∧
        (q = 0 ∨ q = samplesPerTickQ sampleRate (ticks ls.tick).2) ∧
        (iterSt (computeIter ticks sampleRate ls)).sg = ls.sg + g ∧
        (iterSt (computeIter ticks sampleRate ls)).acc = ls.acc - g + q ∧
        0 ≤ (iterSt (computeIter ticks sampleRate ls)).acc) := by
  refine ⟨emuReachable_acc_nonneg, ?_, computeIter_acc_spec⟩
  intro hall
  have h := hall demoS3 demo_reach3
  rw [show demoS3.sampleAccumulator = 49204 from rfl] at h
  norm_num at h

/-- Witness for C2: the invariant applied to the state right after
`emu_init(49716)`, and the iteration characterization applied to the
zero loop state under the demo player. -/
theorem accumulator_invariant_witness :
    0 ≤ (emu_init 49716 emptyEmuState).2.sampleAccumulator ∧
    (∃ (g : ℕ) (q : ℚ),
      (g : ℤ) ≤ ⌊(⟨0, 0, 0⟩ : LoopSt).acc⌋ ∧
      (q = 0 ∨ q = samplesPerTickQ 49716 (demoPlayer.ticks (⟨0, 0, 0⟩ : LoopSt).tick).2) ∧
      (iterSt (computeIter demoPlayer.ticks 49716 ⟨0, 0, 0⟩)).sg
        = (⟨0, 0, 0⟩ : LoopSt).sg + g ∧
      (iterSt (computeIter demoPlayer.ticks 49716 ⟨0, 0, 0⟩)).acc
        = (⟨0, 0, 0⟩ : LoopSt).acc - g + q ∧
      0 ≤ (iterSt (computeIter demoPlayer.ticks 49716 ⟨0, 0, 0⟩)).acc) :=
  ⟨accumulator_invariant.1 _ (EmuReachable.init emptyEmuState 49716),
   accumulator_invariant.2.2 demoPlayer.ticks 49716 ⟨0, 0, 0⟩ le_rfl⟩

/-! ## C4: refresh-rate substitution -/

/-- C4.  The per-tick quota substitutes 70 Hz for a non-positive
reported refresh rate, so the divisor is always positive, the quota
added to the accumulator is strictly positive (for the positive sample
rates init establishes), and the public refresh-rate query applies the
same substitution. -/
theorem refresh_rate_substitution :
    (∀ (sampleRate : ℕ) (r : ℚ), 0 < sampleRate → 0 < samplesPerTickQ sampleRate r) ∧
    (∀ r : ℚ, (0 : ℚ) < (if r ≤ 0 then 70 else r)) ∧
    (∀ s p, s.player = some p → 0 < s.sampleRate →
      getSamplesPerTick s = (s.sampleRate : ℚ) /
        (if p.getrefresh s.currentTick ≤ 0 then 70 else p.getrefresh s.currentTick) ∧
      0 < getSamplesPerTick s) ∧
    (∀ s p, s.player = some p →
      emu_get_refresh_rate s
        = (if p.getrefresh s.currentTick ≤ 0 then 70 else p.getrefresh s.currentTick) ∧
      0 < emu_get_refresh_rate s) := by
  refine ⟨fun sr r h => samplesPerTickQ_pos sr r h, ?_, ?_, ?_⟩
  · intro r
    by_cases hr : r ≤ 0
    · simp [hr]
    · simp [hr]; linarith
  · intro s p hp hsr
    constructor
    · simp [getSamplesPerTick, hp, samplesPerTickQ]
    · have := samplesPerTickQ_pos s.sampleRate (p.getrefresh s.currentTick) hsr
      simpa [getSamplesPerTick, hp] using this
  · intro s p hp
    constructor
    · by_cases hr : p.getrefresh s.currentTick ≤ 0
      · have h0 : ¬ 0 < p.getrefresh s.currentTick := by linarith
        simp [emu_get_refresh_rate, hp, h0, hr]
      · have h0 : 0 < p.getrefresh s.currentTick := by linarith
        simp [emu_get_refresh_rate, hp, h0, hr]
    · by_cases hr : 0 < p.getrefresh s.currentTick
      · simp only [emu_get_refresh_rate, hp, if_pos hr]
        exact hr
      · simp only [emu_get_refresh_rate, hp, if_neg hr]
        norm_num

/-- Witness for C4 at concrete inputs: the quota and the refresh-rate
query on the loaded demo session. -/
theorem refresh_rate_substitution_witness :
    0 < samplesPerTickQ 49716 5 ∧
    (getSamplesPerTick demoS2 = (demoS2.sampleRate : ℚ) /
        (if demoPlayer.getrefresh demoS2.currentTick ≤ 0 then 70
         else demoPlayer.getrefresh demoS2.currentTick) ∧
      0 < getSamplesPerTick demoS2) ∧
    (emu_get_refresh_rate demoS2
        = (if demoPlayer.getrefresh demoS2.currentTick ≤ 0 then 70
           else demoPlayer.getrefresh demoS2.currentTick) ∧
      0 < emu_get_refresh_rate demoS2) :=
  ⟨refresh_rate_substitution.1 49716 5 (by norm_num),
   refresh_rate_substitution.2.2.1 demoS2 demoPlayer rfl (by norm_num [demoS2, demoS1, emptyEmuState]),
   refresh_rate_substitution.2.2.2 demoS2 demoPlayer rfl⟩

/-! ## C3: position update per block -/

/-- The code's truncating position estimate is floor division:
`total * 1000 / sampleRate` milliseconds. -/
theorem positionMsOf_eq_div (total sampleRate : ℕ) :
    positionMsOf total sampleRate = total * 1000 / sampleRate := by
  unfold positionMsOf
  rw [Int.floor_toNat]
  rw [show (total : ℚ) / (sampleRate : ℚ) * 1000
      = ((total * 1000 : ℕ) : ℚ) / (sampleRate : ℚ) by push_cast; ring]
  exact Nat.floor_div_eq_div _ _

theorem computeIterTick_done_false (ticks : ℕ → Bool × ℚ) (sampleRate : ℕ)
    (ls ls' : LoopSt) (h : computeIterTick ticks sampleRate ls = .done false ls') :
    ls' = ls ∧ ¬ ls.sg < AUDIO_BUFFER_SIZE := by
  unfold computeIterTick at h
  by_cases hc : ls.sg < AUDIO_BUFFER_SIZE
  · rw [if_pos hc] at h
    by_cases hs : (ticks ls.tick).1 = true
    · rw [if_pos hs] at h; cases h
    · rw [if_neg hs] at h; cases h
  · rw [if_neg hc] at h
    cases h
    exact ⟨rfl, hc⟩

theorem computeIter_sg_le (ticks : ℕ → Bool × ℚ) (sampleRate : ℕ) (ls : LoopSt)
    (h : ls.sg ≤ AUDIO_BUFFER_SIZE) :
    (iterSt (computeIter ticks sampleRate ls)).sg ≤ AUDIO_BUFFER_SIZE := by
  unfold computeIter
  by_cases h0 : 0 < truncQ ls.acc
  · rw [if_pos h0]
    have hsg := (computeIterTick_spec ticks sampleRate
      ⟨ls.sg + min (truncQ ls.acc).toNat (AUDIO_BUFFER_SIZE - ls.sg),
        ls.acc - (min (truncQ ls.acc).toNat (AUDIO_BUFFER_SIZE - ls.sg) : ℕ), ls.tick⟩).1
    rw [hsg]
    show ls.sg + min (truncQ ls.acc).toNat (AUDIO_BUFFER_SIZE - ls.sg) ≤ AUDIO_BUFFER_SIZE
    have := Nat.min_le_right (truncQ ls.acc).toNat (AUDIO_BUFFER_SIZE - ls.sg)
    omega
  · rw [if_neg h0]
    have hsg := (computeIterTick_spec ticks sampleRate ls).1
    rw [hsg]
    exact h

theorem computeIter_done_false_sg (ticks : ℕ → Bool × ℚ) (sampleRate : ℕ)
    (ls ls' : LoopSt) (h : ls.sg ≤ AUDIO_BUFFER_SIZE)
    (he : computeIter ticks sampleRate ls = .done false ls') :
    ls'.sg = AUDIO_BUFFER_SIZE := by
  unfold computeIter at he
  by_cases h0 : 0 < truncQ ls.acc
  · rw [if_pos h0] at he
    obtain ⟨hls, hnotlt⟩ := computeIterTick_done_false _ _ _ _ he
    subst hls
    simp only [] at hnotlt ⊢
    have := Nat.min_le_right (truncQ ls.acc).toNat (AUDIO_BUFFER_SIZE - ls.sg)
    omega
  · rw [if_neg h0] at he
    obtain ⟨hls, hnotlt⟩ := computeIterTick_done_false _ _ _ _ he
    subst hls
    omega

/-- A loop run that reports a full block has rendered exactly
`AUDIO_BUFFER_SIZE` samples. -/
theorem computeLoop_done_false_sg (ticks : ℕ → Bool × ℚ) (sampleRate : ℕ) :
    ∀ (fuel : ℕ) (ls : LoopSt), ls.sg ≤ AUDIO_BUFFER_SIZE →
    ∀ ls', computeLoop ticks sampleRate fuel ls = some (false, ls') →
    ls'.sg = AUDIO_BUFFER_SIZE := by
  intro fuel
  induction fuel with
  | zero => intro ls _ ls' h; simp [computeLoop] at h
  | succ n ih =>
    intro ls hls ls' h
    rw [computeLoop] at h
    cases hit : computeIter ticks sampleRate ls with
    | next ls1 =>
      rw [hit] at h
      have h1 : ls1.sg ≤ AUDIO_BUFFER_SIZE := by
        have := computeIter_sg_le ticks sampleRate ls hls
        rw [hit] at this
        exact this
      exact ih ls1 h1 ls' h
    | done e1 ls1 =>
      rw [hit] at h
      cases h
      exact computeIter_done_false_sg ticks sampleRate ls ls' hls hit

/-- Decomposition of a completed `emu_compute_audio_samples` call on a
live session: the loop ran, and the state written back is determined by
whether the song ended. -/
theorem emu_compute_cases (s : EmuState) (p : Player) (fuel : ℕ) (st : ℤ) (s' : EmuState)
    (hp : s.player = some p) (ho : s.opl = true) (hb : s.audioBuffer = true)
    (hc : emu_compute_audio_samples fuel s = some (st, s')) :
    ∃ e ls, computeLoop p.ticks s.sampleRate fuel
        ⟨0, s.sampleAccumulator, s.currentTick⟩ = some (e, ls) ∧
      ((e = true ∧ st = 1 ∧
          s' = { s with sampleAccumulator := ls.acc, currentTick := ls.tick,
                        audioBufferLength := ls.sg * 2 * 2 }) ∨
       (e = false ∧ st = 0 ∧
          s' = { s with sampleAccumulator := ls.acc, currentTick := ls.tick,
                        totalSamplesGenerated := s.totalSamplesGenerated + ls.sg,
                        currentPosition :=
                          positionMsOf (s.totalSamplesGenerated + ls.sg) s.sampleRate,
                        audioBufferLength := ls.sg * 2 * 2 })) := by
  unfold emu_compute_audio_samples at hc
  rw [hp] at hc
  simp only [] at hc
  rw [if_neg (by simp [ho, hb])] at hc
  cases hl : computeLoop p.ticks s.sampleRate fuel
      ⟨0, s.sampleAccumulator, s.currentTick⟩ with
  | none => rw [hl] at hc; cases hc
  | some r =>
    obtain ⟨e, ls⟩ := r
    rw [hl] at hc
    refine ⟨e, ls, rfl, ?_⟩
    cases e with
    | true =>
      simp only [if_pos rfl] at hc
      cases hc
      refine Or.inl ⟨rfl, rfl, ?_⟩
      rw [hp]
    | false =>
      simp only [Bool.false_eq_true, if_neg] at hc
      cases hc
      refine Or.inr ⟨rfl, rfl, ?_⟩
      rw [hp]

/-- Helper: what a completed compute call does to the total-rendered
counter and the reported position, by status. -/
theorem computePositionSpec (s : EmuState) (p : Player) (fuel : ℕ) (st : ℤ)
    (s' : EmuState) (hp : s.player = some p) (ho : s.opl = true)
    (hb : s.audioBuffer = true)
    (hc : emu_compute_audio_samples fuel s = some (st, s')) :
    (st = 0 → s'.totalSamplesGenerated
        = s.totalSamplesGenerated + AUDIO_BUFFER_SIZE ∧
      s'.currentPosition = s'.totalSamplesGenerated * 1000 / s.sampleRate) ∧
    (st = 1 → s'.totalSamplesGenerated = s.totalSamplesGenerated ∧
      s'.currentPosition = s.currentPosition) := by
  obtain ⟨e, ls, hl, hcase⟩ := emu_compute_cases s p fuel st s' hp ho hb hc
  rcases hcase with ⟨he, hst, hs'⟩ | ⟨he, hst, hs'⟩
  · subst hst; subst hs'
    constructor
    · intro h0; exact absurd h0 (by norm_num)
    · intro _; exact ⟨rfl, rfl⟩
  · subst hst; subst hs'
    constructor
    · intro _
      subst he
      have hsg : ls.sg = AUDIO_BUFFER_SIZE :=
        computeLoop_done_false_sg p.ticks s.sampleRate fuel
          ⟨0, s.sampleAccumulator, s.currentTick⟩ (by norm_num [AUDIO_BUFFER_SIZE]) ls hl
      constructor
      · show s.totalSamplesGenerated + ls.sg = _
        rw [hsg]
      · show positionMsOf (s.totalSamplesGenerated + ls.sg) s.sampleRate = _
        rw [positionMsOf_eq_div]
    · intro h1; exact absurd h1 (by norm_num)

/-- C3 (amended).  On a live session, a completed compute call that
returns 0 has rendered a full block: the total-rendered counter grew by
`AUDIO_BUFFER_SIZE` and the reported position is the truncated
`total * 1000 / sampleRate` milliseconds — so the position advances only
in whole-block increments and never retroactively; a call that returns 1
(the song-ended call, whatever partial block it produced) leaves both
the total-rendered counter and the reported position untouched. -/
theorem position_block_update (s : EmuState) (p : Player) (fuel : ℕ) (st : ℤ)
    (s' : EmuState) (hp : s.player = some p) (ho : s.opl = true)
    (hb : s.audioBuffer = true)
    (hc : emu_compute_audio_samples fuel s = some (st, s')) :
    (st = 0 → s'.totalSamplesGenerated
        = s.totalSamplesGenerated + AUDIO_BUFFER_SIZE ∧
      s'.currentPosition = s'.totalSamplesGenerated * 1000 / s.sampleRate) ∧
    (st = 1 → s'.totalSamplesGenerated = s.totalSamplesGenerated ∧
      s'.currentPosition = s.currentPosition) :=
  computePositionSpec s p fuel st s' hp ho hb hc

/-- Witness for C3 (amended): the demo session's full block. -/
theorem position_block_update_witness :
    ((0 : ℤ) = 0 → demoS3.totalSamplesGenerated
        = demoS2.totalSamplesGenerated + AUDIO_BUFFER_SIZE ∧
      demoS3.currentPosition
        = demoS3.totalSamplesGenerated * 1000 / demoS2.sampleRate) ∧
    ((0 : ℤ) = 1 → demoS3.totalSamplesGenerated = demoS2.totalSamplesGenerated ∧
      demoS3.currentPosition = demoS2.currentPosition) :=
  position_block_update demoS2 demoPlayer 2 0 demoS3 rfl rfl rfl demo_compute

/-- A player whose refresh rate makes one tick worth 3000 samples at
sample rate 3 (refresh 1/1000 Hz), always still playing. -/
def cexPlayer : Player :=
  { ticks := fun _ => (true, 1 / 1000), refresh0 := 1 / 1000, internalPos := 0,
    title := [], author := [], ptype := [], desc := [],
    subsongs := 1, songlength := fun _ => 0 }

/-- State after `emu_init(3)` from process start. -/
def cexS1 : EmuState :=
  { emptyEmuState with opl := true, audioBuffer := true, sampleRate := 3 }

theorem cex_init : (emu_init 3 emptyEmuState).2 = cexS1 := rfl

/-- State after loading a one-byte file with `cexPlayer` at rate 3. -/
def cexS2 : EmuState :=
  { cexS1 with player := some cexPlayer, files := [(nm "a", [0])] }

theorem cex_load :
    (emu_load_file (some (nm "a")) (some [0]) 1 (some cexPlayer) cexS1).2 = cexS2 := by
  simp [emu_load_file, emu_add_file, cexS1, cexS2, cexPlayer, emptyEmuState,
    storeInsert, EMU_TEXT_CAP, EMU_DESC_CAP]

theorem cex_iter1 :
    computeIter cexPlayer.ticks 3 ⟨0, 0, 0⟩ = .next ⟨0, 3000, 1⟩ := by
  norm_num [computeIter, computeIterTick, truncQ, cexPlayer, samplesPerTickQ,
    AUDIO_BUFFER_SIZE]

theorem cex_iter2 :
    computeIter cexPlayer.ticks 3 ⟨0, 3000, 1⟩ = .done false ⟨512, 2488, 1⟩ := by
  have ht : truncQ (3000 : ℚ) = 3000 := by
    rw [truncQ, if_pos (by norm_num), Int.floor_eq_iff] <;> norm_num
  norm_num [computeIter, computeIterTick, ht, AUDIO_BUFFER_SIZE]

theorem cex_loop :
    computeLoop cexPlayer.ticks 3 2 ⟨0, 0, 0⟩ = some (false, ⟨512, 2488, 1⟩) := by
  rw [show (2 : ℕ) = 1 + 1 from rfl, computeLoop_succ, cex_iter1]
  show computeLoop cexPlayer.ticks 3 1 ⟨0, 3000, 1⟩ = _
  rw [show (1 : ℕ) = 0 + 1 from rfl, computeLoop_succ, cex_iter2]

/-- State after one full block from `cexS2`. -/
def cexS3 : EmuState :=
  { cexS2 with sampleAccumulator := 2488, currentTick := 1,
               totalSamplesGenerated := 512,
               currentPosition := positionMsOf 512 3,
               audioBufferLength := 2048 }

theorem cex_compute : emu_compute_audio_samples 2 cexS2 = some (0, cexS3) := by
  have h := emu_compute_of_loop_full cexS2 cexPlayer 2 ⟨512, 2488, 1⟩ rfl rfl rfl
    (by exact cex_loop)
  rw [h]
  rfl

/-- A player that plays exactly one tick worth 100 samples at sample
rate 3 (refresh 3/100 Hz) and then reports the song over. -/
def endPlayer : Player :=
  { ticks := fun n => (n == 0, 3 / 100), refresh0 := 3 / 100, internalPos := 0,
    title := [], author := [], ptype := [], desc := [],
    subsongs := 1, songlength := fun _ => 0 }

/-- State after loading a one-byte file with `endPlayer` at rate 3. -/
def endS2 : EmuState :=
  { cexS1 with player := some endPlayer, files := [(nm "a", [0])] }

theorem end_load :
    (emu_load_file (some (nm "a")) (some [0]) 1 (some endPlayer) cexS1).2 = endS2 := by
  simp [emu_load_file, emu_add_file, cexS1, endS2, endPlayer, emptyEmuState,
    storeInsert, EMU_TEXT_CAP, EMU_DESC_CAP]

theorem end_iter1 :
    computeIter endPlayer.ticks 3 ⟨0, 0, 0⟩ = .next ⟨0, 100, 1⟩ := by
  norm_num [computeIter, computeIterTick, truncQ, endPlayer, samplesPerTickQ,
    AUDIO_BUFFER_SIZE]

theorem end_iter2 :
    computeIter endPlayer.ticks 3 ⟨0, 100, 1⟩ = .done true ⟨100, 0, 2⟩ := by
  have ht : truncQ (100 : ℚ) = 100 := by
    rw [truncQ, if_pos (by norm_num), Int.floor_eq_iff] <;> norm_num
  have ht2 : Int.toNat 100 = 100 := by decide
  norm_num [computeIter, computeIterTick, ht, ht2, AUDIO_BUFFER_SIZE, endPlayer]

theorem end_loop :
    computeLoop endPlayer.ticks 3 2 ⟨0, 0, 0⟩ = some (true, ⟨100, 0, 2⟩) := by
  rw [show (2 : ℕ) = 1 + 1 from rfl, computeLoop_succ, end_iter1]
  show computeLoop endPlayer.ticks 3 1 ⟨0, 100, 1⟩ = _
  rw [show (1 : ℕ) = 0 + 1 from rfl, computeLoop_succ, end_iter2]

/-- State after the song-ended compute call from `endS2`: a partial
block of 100 samples (400 bytes) was produced. -/
def endS3 : EmuState :=
  { endS2 with sampleAccumulator := 0, currentTick := 2, audioBufferLength := 400 }

theorem end_compute : emu_compute_audio_samples 2 endS2 = some (1, endS3) := by
  have h := emu_compute_of_loop_ended endS2 endPlayer 2 ⟨100, 0, 2⟩ rfl rfl rfl
    (by exact end_loop)
  rw [h]
  rfl

/-- Counterexample to C3 as stated.  First run (sample rate 3, one full
block of 512 samples): the code reports `⌊512000/3⌋ = 170666` ms where
the claim's `round(512000/3)` is 170667 — the code truncates, it does
not round.  Second run (song ends after a partial block of 100 samples,
buffer length 400 bytes): the code leaves position and total-rendered at
0, while the claim requires the position to cover the partial block
(`round(100000/3) = 33333` ms) on the ended call. -/
theorem position_round_counterexample :
    (emu_compute_audio_samples 2 cexS2 = some (0, cexS3) ∧
      cexS3.totalSamplesGenerated = 512 ∧
      cexS3.currentPosition = 170666 ∧
      (round ((512 : ℚ) / (cexS2.sampleRate : ℚ) * 1000)).toNat = 170667) ∧
    (emu_compute_audio_samples 2 endS2 = some (1, endS3) ∧
      endS3.audioBufferLength = 400 ∧
      endS3.totalSamplesGenerated = 0 ∧
      endS3.currentPosition = 0 ∧
      (round ((100 : ℚ) / (endS2.sampleRate : ℚ) * 1000)).toNat = 33333) := by
  refine ⟨⟨cex_compute, rfl, ?_, ?_⟩, ⟨end_compute, rfl, rfl, rfl, ?_⟩⟩
  · show positionMsOf 512 3 = 170666
    rw [positionMsOf_eq_div]
  · have h : round ((512 : ℚ) / (3 : ℚ) * 1000) = 170667 := by
      rw [round_eq, Int.floor_eq_iff] <;> norm_num
    show (round ((512 : ℚ) / ((3 : ℕ) : ℚ) * 1000)).toNat = 170667
    rw [show ((3 : ℕ) : ℚ) = (3 : ℚ) by norm_num, h]
    rfl
  · have h : round ((100 : ℚ) / (3 : ℚ) * 1000) = 33333 := by
      rw [round_eq, Int.floor_eq_iff] <;> norm_num
    show (round ((100 : ℚ) / ((3 : ℕ) : ℚ) * 1000)).toNat = 33333
    rw [show ((3 : ℕ) : ℚ) = (3 : ℚ) by norm_num, h]
    rfl

/-! ## C5: compute with no track loaded -/

/-- A frame-pull session state with no module but a stale nonzero
buffer frame count. -/
def noModState : MptState :=
  { emptyMptState with audioBuffer := true, audioBufferFrames := 7 }

/-- Counterexample to C5 as stated: on the frame-pull surface a compute
call with no module loaded returns 1 but does modify the session state —
it zeroes the audio buffer's valid frame count (here 7 becomes 0). -/
theorem compute_no_track_counterexample :
    noModState.module = none ∧
    (mpt_compute_audio_samples noModState).1 = 1 ∧
    (mpt_compute_audio_samples noModState).2 ≠ noModState := by
  refine ⟨rfl, rfl, ?_⟩
  intro h
  have h7 : (mpt_compute_audio_samples noModState).2.audioBufferFrames
      = noModState.audioBufferFrames := by rw [h]
  simp [mpt_compute_audio_samples, noModState, emptyMptState] at h7

/-- C5 (amended).  With no track loaded, compute returns the ended
status 1 on both surfaces without faulting; the tick surface leaves the
state entirely unchanged, while the frame-pull surface changes nothing
except zeroing the audio buffer's valid frame count.  A load whose
factory/parse step fails (after passing the argument guard) reports -1
and leaves the session with no track, so subsequent computes signal
ended. -/
theorem compute_no_track_ended :
    (∀ (fuel : ℕ) (s : EmuState), s.player = none →
        emu_compute_audio_samples fuel s = some (1, s)) ∧
    (∀ s : MptState, s.module = none →
        mpt_compute_audio_samples s = (1, { s with audioBufferFrames := 0 })) ∧
    (∀ (fn : Name) (d : Bytes) (sz : ℤ) (s : EmuState), s.opl = true → 0 < sz →
        (emu_load_file (some fn) (some d) sz none s).1 = -1 ∧
        (emu_load_file (some fn) (some d) sz none s).2.player = none) ∧
    (∀ (fname : Option Name) (d : Bytes) (sz : ℤ) (s : MptState), 0 < sz →
        (mpt_load_file fname (some d) sz none s).1 = -1 ∧
        (mpt_load_file fname (some d) sz none s).2.module = none) := by
  refine ⟨?_, ?_, ?_, ?_⟩
  · intro fuel s hp
    unfold emu_compute_audio_samples
    rw [hp]
  · intro s hm
    unfold mpt_compute_audio_samples
    rw [hm]
  · intro fn d sz s ho hsz
    have hg : ¬ (s.opl = false ∨ sz ≤ 0) := by
      push_neg
      exact ⟨by simp [ho], by linarith⟩
    constructor
    · simp only [emu_load_file, if_neg hg]
    · simp only [emu_load_file, if_neg hg]
      simp [emu_add_file, if_neg (by linarith : ¬ sz ≤ 0)]
  · intro fname d sz s hsz
    constructor
    · simp only [mpt_load_file, if_neg (by linarith : ¬ sz ≤ 0)]
    · simp only [mpt_load_file, if_neg (by linarith : ¬ sz ≤ 0)]

/-- Witness for C5 (amended) at concrete inputs. -/
theorem compute_no_track_ended_witness :
    emu_compute_audio_samples 1 emptyEmuState = some (1, emptyEmuState) ∧
    mpt_compute_audio_samples emptyMptState
      = (1, { emptyMptState with audioBufferFrames := 0 }) ∧
    ((emu_load_file (some (nm "a")) (some [0]) 1 none cexS1).1 = -1 ∧
      (emu_load_file (some (nm "a")) (some [0]) 1 none cexS1).2.player = none) ∧
    ((mpt_load_file (some (nm "a")) (some [0]) 1 none emptyMptState).1 = -1 ∧
      (mpt_load_file (some (nm "a")) (some [0]) 1 none emptyMptState).2.module = none) :=
  ⟨compute_no_track_ended.1 1 emptyEmuState rfl,
   compute_no_track_ended.2.1 emptyMptState rfl,
   compute_no_track_ended.2.2.1 (nm "a") [0] 1 cexS1 rfl (by norm_num),
   compute_no_track_ended.2.2.2 (some (nm "a")) [0] 1 emptyMptState (by norm_num)⟩

/-! ## C6: invalid-argument handling of load/add-file -/

/-- A loaded frame-pull module for concrete states. -/
def cexModule : MptModule :=
  { positionSeconds := 0, repeatCount := 0, durationSeconds := 0,
    mtitle := none, martist := none, mtypeLong := none, render := 0 }

/-- A frame-pull session with a module loaded. -/
def modState : MptState :=
  { emptyMptState with audioBuffer := true, module := some cexModule }

/-- Counterexample to C6 as stated: `mpt_load_file` never checks its
filename argument, so a call with a null filename but valid data and
size is not rejected — it proceeds, destroying the previously loaded
module (here the creation step then fails, so the status happens to be
-1, but the session state has changed: the prior module is gone). -/
theorem load_null_filename_counterexample :
    (mpt_load_file none (some [1, 2, 3]) 3 none modState).2.module = none ∧
    modState.module = some cexModule ∧
    (mpt_load_file none (some [1, 2, 3]) 3 none modState).2 ≠ modState := by
  refine ⟨rfl, rfl, ?_⟩
  intro h
  have h2 : (mpt_load_file none (some [1, 2, 3]) 3 none modState).2.module = none := rfl
  rw [h] at h2
  simp [modState, emptyMptState] at h2

/-- C6 (amended).  On the tick surface, a null filename, null data or
non-positive size makes both `emu_add_file` and `emu_load_file` return
-1 with the entire session state unchanged.  On the frame-pull surface,
null data or non-positive size makes `mpt_load_file` return -1 with the
state unchanged, but the filename argument is never read (in particular
never null-checked): the call behaves identically whatever filename is
passed. -/
theorem invalid_args_no_state_change :
    (∀ (d : Option Bytes) (sz : ℤ) (s : EmuState),
       emu_add_file none d sz s = (-1, s)) ∧
    (∀ (fn : Option Name) (sz : ℤ) (s : EmuState),
       emu_add_file fn none sz s = (-1, s)) ∧
    (∀ (fn : Name) (d : Bytes) (sz : ℤ) (s : EmuState), sz ≤ 0 →
       emu_add_file (some fn) (some d) sz s = (-1, s)) ∧
    (∀ (d : Option Bytes) (sz : ℤ) (f : Option Player) (s : EmuState),
       emu_load_file none d sz f s = (-1, s)) ∧
    (∀ (fn : Option Name) (sz : ℤ) (f : Option Player) (s : EmuState),
       emu_load_file fn none sz f s = (-1, s)) ∧
    (∀ (fn : Name) (d : Bytes) (sz : ℤ) (f : Option Player) (s : EmuState), sz ≤ 0 →
       emu_load_file (some fn) (some d) sz f s = (-1, s)) ∧
    (∀ (fn : Option Name) (sz : ℤ) (c : Option MptModule) (s : MptState),
       mpt_load_file fn none sz c s = (-1, s)) ∧
    (∀ (fn : Option Name) (d : Bytes) (sz : ℤ) (c : Option MptModule) (s : MptState),
       sz ≤ 0 → mpt_load_file fn (some d) sz c s = (-1, s)) ∧
    (∀ (fn fn' : Option Name) (d : Option Bytes) (sz : ℤ) (c : Option MptModule)
       (s : MptState), mpt_load_file fn d sz c s = mpt_load_file fn' d sz c s) := by
  refine ⟨?_, ?_, ?_, ?_, ?_, ?_, ?_, ?_, ?_⟩
  · intro d sz s; cases d <;> rfl
  · intro fn sz s; cases fn <;> rfl
  · intro fn d sz s hsz
    simp only [emu_add_file, if_pos hsz]
  · intro d sz f s; cases d <;> rfl
  · intro fn sz f s; cases fn <;> rfl
  · intro fn d sz f s hsz
    simp only [emu_load_file, if_pos (Or.inr hsz)]
  · intro fn sz c s; rfl
  · intro fn d sz c s hsz
    simp only [mpt_load_file, if_pos hsz]
  · intro fn fn' d sz c s; rfl

/-- Witness for C6 (amended) at concrete inputs (`modState` and `endS2`
carry a loaded module/player, so these calls demonstrably destroy
nothing). -/
theorem invalid_args_no_state_change_witness :
    emu_add_file none (some [1]) 1 endS2 = (-1, endS2) ∧
    emu_add_file (some (nm "a")) (some [1]) 0 endS2 = (-1, endS2) ∧
    emu_load_file (some (nm "a")) (some [1]) 0 (some demoPlayer) endS2
      = (-1, endS2) ∧
    mpt_load_file (some (nm "a")) (some [1]) 0 (some cexModule) modState
      = (-1, modState) ∧
    mpt_load_file none (some [1]) 1 (some cexModule) modState
      = mpt_load_file (some (nm "a")) (some [1]) 1 (some cexModule) modState :=
  ⟨invalid_args_no_state_change.1 (some [1]) 1 endS2,
   invalid_args_no_state_change.2.2.1 (nm "a") [1] 0 endS2 (by norm_num),
   invalid_args_no_state_change.2.2.2.2.2.1 (nm "a") [1] 0 (some demoPlayer) endS2
     (by norm_num),
   invalid_args_no_state_change.2.2.2.2.2.2.2.1 (some (nm "a")) [1] 0
     (some cexModule) modState (by norm_num),
   invalid_args_no_state_change.2.2.2.2.2.2.2.2 none (some (nm "a")) (some [1]) 1
     (some cexModule) modState⟩

/-! ## C7: re-registration under an existing name -/

theorem nameLt_irrefl (a : Name) : nameLt a a = false := by
  induction a with
  | nil => rfl
  | cons c cs ih =>
    unfold nameLt
    rw [if_neg (lt_irrefl _), if_neg (lt_irrefl _)]
    exact ih

theorem nameLt_cons_iff (c d : Char) (cs ds : Name) :
    nameLt (c :: cs) (d :: ds) = true ↔
    (c.toNat < d.toNat ∨ (c.toNat = d.toNat ∧ nameLt cs ds = true)) := by
  show (if c.toNat < d.toNat then true
        else if d.toNat < c.toNat then false else nameLt cs ds) = true ↔ _
  by_cases h1 : c.toNat < d.toNat
  · rw [if_pos h1]
    simp [h1]
  · by_cases h2 : d.toNat < c.toNat
    · rw [if_neg h1, if_pos h2]
      constructor
      · intro h; simp at h
      · intro h
        rcases h with h | ⟨he, _⟩
        · omega
        · omega
    · have h3 : c.toNat = d.toNat := by omega
      rw [if_neg h1, if_neg h2]
      constructor
      · intro h; exact Or.inr ⟨h3, h⟩
      · intro h
        rcases h with h | ⟨_, h⟩
        · omega
        · exact h

theorem nameLt_total (a : Name) : ∀ b : Name,
    a = b ∨ nameLt a b = true ∨ nameLt b a = true := by
  induction a with
  | nil =>
    intro b
    cases b with
    | nil => exact Or.inl rfl
    | cons d ds => exact Or.inr (Or.inl rfl)
  | cons c cs ih =>
    intro b
    cases b with
    | nil => exact Or.inr (Or.inr rfl)
    | cons d ds =>
      rcases Nat.lt_trichotomy c.toNat d.toNat with h | h | h
      · exact Or.inr (Or.inl ((nameLt_cons_iff c d cs ds).mpr (Or.inl h)))
      · have hc : c = d := Char.ext (UInt32.ext h)
        subst hc
        rcases ih ds with h1 | h1 | h1
        · exact Or.inl (by rw [h1])
        · exact Or.inr (Or.inl ((nameLt_cons_iff c c cs ds).mpr (Or.inr ⟨rfl, h1⟩)))
        · exact Or.inr (Or.inr ((nameLt_cons_iff c c ds cs).mpr (Or.inr ⟨rfl, h1⟩)))
      · exact Or.inr (Or.inr ((nameLt_cons_iff d c ds cs).mpr (Or.inl h)))

theorem nameLt_trans (a : Name) : ∀ b c : Name,
    nameLt a b = true → nameLt b c = true → nameLt a c = true := by
  induction a with
  | nil =>
    intro b c h1 h2
    cases b with
    | nil => cases h1
    | cons y ys =>
      cases c with
      | nil => cases h2
      | cons z zs => rfl
  | cons x xs ih =>
    intro b c h1 h2
    cases b with
    | nil => cases h1
    | cons y ys =>
      cases c with
      | nil => cases h2
      | cons z zs =>
        rw [nameLt_cons_iff] at h1 h2 ⊢
        rcases h1 with h1 | ⟨h1e, h1r⟩
        · rcases h2 with h2 | ⟨h2e, h2r⟩
          · exact Or.inl (by omega)
          · exact Or.inl (by omega)
        · rcases h2 with h2 | ⟨h2e, h2r⟩
          · exact Or.inl (by omega)
          · exact Or.inr ⟨by omega, ih ys zs h1r h2r⟩

/-- The well-formedness invariant of the `std::map` model: entries
strictly sorted by key. -/
def storeWF (store : Store) : Prop :=
  List.Pairwise (fun a b => nameLt a.1 b.1 = true) store

theorem storeInsert_mem (store : Store) (k : Name) (v : Bytes) (x : Name × Bytes)
    (h : x ∈ storeInsert store k v) : x = (k, v) ∨ x ∈ store := by
  induction store with
  | nil =>
    simp [storeInsert] at h
    exact Or.inl h
  | cons hd tl ih =>
    obtain ⟨k', v'⟩ := hd
    unfold storeInsert at h
    by_cases he : k = k'
    · rw [if_pos he] at h
      rcases List.mem_cons.mp h with h | h
      · exact Or.inl h
      · exact Or.inr (List.mem_cons_of_mem _ h)
    · rw [if_neg he] at h
      by_cases hlt : nameLt k k' = true
      · rw [if_pos hlt] at h
        rcases List.mem_cons.mp h with h | h
        · exact Or.inl h
        · exact Or.inr h
      · rw [if_neg hlt] at h
        rcases List.mem_cons.mp h with h | h
        · exact Or.inr (by rw [h]; exact List.mem_cons_self _ _)
        · rcases ih h with h | h
          · exact Or.inl h
          · exact Or.inr (List.mem_cons_of_mem _ h)

theorem storeInsert_wf (store : Store) (k : Name) (v : Bytes)
    (h : storeWF store) : storeWF (storeInsert store k v) := by
  induction store with
  | nil => simp [storeInsert, storeWF]
  | cons hd tl ih =>
    obtain ⟨k', v'⟩ := hd
    rw [storeWF, List.pairwise_cons] at h
    obtain ⟨hrel, hrest⟩ := h
    unfold storeInsert
    by_cases he : k = k'
    · rw [if_pos he]
      rw [storeWF, List.pairwise_cons]
      exact ⟨fun x hx => he ▸ hrel x hx, hrest⟩
    · rw [if_neg he]
      by_cases hlt : nameLt k k' = true
      · rw [if_pos hlt]
        rw [storeWF, List.pairwise_cons]
        refine ⟨?_, List.Pairwise.cons hrel hrest⟩
        intro x hx
        rcases List.mem_cons.mp hx with hx | hx
        · rw [hx]; exact hlt
        · exact nameLt_trans k k' x.1 hlt (hrel x hx)
      · rw [if_neg hlt]
        rw [storeWF, List.pairwise_cons]
        refine ⟨?_, ih hrest⟩
        intro x hx
        rcases storeInsert_mem tl k v x hx with hx | hx
        · rw [hx]
          rcases nameLt_total k k' with h0 | h0 | h0
          · exact absurd h0 he
          · exact absurd h0 hlt
          · exact h0
        · exact hrel x hx

theorem storeWF_keys_nodup (store : Store) (h : storeWF store) :
    (store.map Prod.fst).Nodup := by
  rw [List.Nodup, List.pairwise_map]
  refine h.imp ?_
  intro a b hab he
  rw [he, nameLt_irrefl] at hab
  cases hab

theorem storeFind_storeInsert_self (store : Store) (k : Name) (v : Bytes) :
    storeFind (storeInsert store k v) k = some v := by
  induction store with
  | nil => simp [storeInsert, storeFind]
  | cons hd tl ih =>
    obtain ⟨k', v'⟩ := hd
    unfold storeInsert
    by_cases he : k = k'
    · rw [if_pos he]
      simp [storeFind]
    · rw [if_neg he]
      by_cases hlt : nameLt k k' = true
      · rw [if_pos hlt]
        simp [storeFind]
      · rw [if_neg hlt]
        have hne : ¬(k' = k) := fun h => he h.symm
        simp only [storeFind, List.find?] at ih ⊢
        simp only [hne, decide_eq_false_iff_not.mpr hne]
        exact ih

theorem storeFind_storeInsert_other (store : Store) (k k' : Name) (v : Bytes)
    (h : k' ≠ k) : storeFind (storeInsert store k v) k' = storeFind store k' := by
  have hne : ¬(k = k') := fun he => h he.symm
  induction store with
  | nil => simp [storeInsert, storeFind, List.find?, hne]
  | cons hd tl ih =>
    obtain ⟨k1, v1⟩ := hd
    unfold storeInsert
    by_cases he : k = k1
    · rw [if_pos he]
      subst he
      simp [storeFind, List.find?, hne]
    · rw [if_neg he]
      by_cases hlt : nameLt k k1 = true
      · rw [if_pos hlt]
        simp [storeFind, List.find?, hne]
      · rw [if_neg hlt]
        simp only [storeFind, List.find?] at ih ⊢
        cases hh : decide (k1 = k') with
        | true => simp [hh]
        | false => simpa [hh] using ih

/-- Under the sorted-store invariant, after inserting `(k, v)` the only
entry under `k` carries `v`: the previously stored bytes are gone. -/
theorem storeInsert_unique (store : Store) (k : Name) (v : Bytes)
    (hwf : storeWF store) :
    ∀ v', (k, v') ∈ storeInsert store k v → v' = v := by
  induction store with
  | nil =>
    intro v' h
    simp [storeInsert] at h
    exact h
  | cons hd tl ih =>
    obtain ⟨k1, v1⟩ := hd
    rw [storeWF, List.pairwise_cons] at hwf
    obtain ⟨hrel, hrest⟩ := hwf
    intro v' h
    unfold storeInsert at h
    by_cases he : k = k1
    · rw [if_pos he] at h
      rcases List.mem_cons.mp h with h | h
      · exact (Prod.mk.injEq _ _ _ _ ▸ h).2
      · have := hrel (k, v') h
        rw [← he] at this
        rw [nameLt_irrefl] at this
        cases this
    · rw [if_neg he] at h
      by_cases hlt : nameLt k k1 = true
      · rw [if_pos hlt] at h
        rcases List.mem_cons.mp h with h | h
        · exact (Prod.mk.injEq _ _ _ _ ▸ h).2
        · rcases List.mem_cons.mp h with h | h
          · exact absurd (Prod.mk.injEq _ _ _ _ ▸ h).1 he
          · have h2 := hrel (k, v') h
            have h3 := nameLt_trans k k1 k hlt h2
            rw [nameLt_irrefl] at h3
            cases h3
      · rw [if_neg hlt] at h
        rcases List.mem_cons.mp h with h | h
        · exact absurd (Prod.mk.injEq _ _ _ _ ▸ h).1 he
        · exact ih hrest v' h

/-- C7.  Re-registering a name stores the new bytes in place of the old
entry: lookups of that exact name (including through the three-tier
`open`) return only the newly registered bytes, other entries are
untouched, the store keeps at most one entry per case-sensitive key
(well-formedness and key uniqueness are preserved, and no stale bytes
survive under the key), and `emu_add_file` performs exactly this
replacement on the session's store, returning 0. -/
theorem reregistration_replaces :
    (∀ (store : Store) (k : Name) (v : Bytes),
       storeFind (storeInsert store k v) k = some v) ∧
    (∀ (store : Store) (k k' : Name) (v : Bytes), k' ≠ k →
       storeFind (storeInsert store k v) k' = storeFind store k') ∧
    (∀ (store : Store) (k : Name) (v : Bytes), storeWF store →
       storeWF (storeInsert store k v) ∧
       ((storeInsert store k v).map Prod.fst).Nodup ∧
       (∀ v', (k, v') ∈ storeInsert store k v → v' = v)) ∧
    (∀ (store : Store) (k : Name) (v : Bytes),
       CProvider_Memory.openFile (storeInsert store k v) k = some v) ∧
    (∀ (fn : Name) (d : Bytes) (sz : ℤ) (s : EmuState), 0 < sz →
       (emu_add_file (some fn) (some d) sz s).1 = 0 ∧
       (emu_add_file (some fn) (some d) sz s).2
         = { s with files := storeInsert s.files fn (d.take sz.toNat) }) := by
  refine ⟨storeFind_storeInsert_self, storeFind_storeInsert_other, ?_, ?_, ?_⟩
  · intro store k v hwf
    exact ⟨storeInsert_wf store k v hwf,
      storeWF_keys_nodup _ (storeInsert_wf store k v hwf),
      storeInsert_unique store k v hwf⟩
  · intro store k v
    rw [openFile_eq_resolveSpec, resolveSpec, tierExact,
      storeFind_storeInsert_self]
  · intro fn d sz s hsz
    constructor
    · simp only [emu_add_file, if_neg (by linarith : ¬ sz ≤ 0)]
    · simp only [emu_add_file, if_neg (by linarith : ¬ sz ≤ 0)]

/-- Witness for C7 at concrete inputs: re-registering `"a"` over a
store already holding `"a"` (with another entry present). -/
theorem reregistration_replaces_witness :
    storeFind (storeInsert [(nm "a", [1]), (nm "b", [9])] (nm "a") [2]) (nm "a")
      = some [2] ∧
    storeFind (storeInsert [(nm "a", [1]), (nm "b", [9])] (nm "a") [2]) (nm "b")
      = storeFind [(nm "a", [1]), (nm "b", [9])] (nm "b") ∧
    (∀ v', ((nm "a"), v') ∈ storeInsert [(nm "a", [1]), (nm "b", [9])] (nm "a") [2]
      → v' = [2]) ∧
    CProvider_Memory.openFile (storeInsert [(nm "a", [1]), (nm "b", [9])] (nm "a") [2])
      (nm "a") = some [2] ∧
    (emu_add_file (some (nm "a")) (some [2]) 1 demoS2).1 = 0 :=
  ⟨reregistration_replaces.1 [(nm "a", [1]), (nm "b", [9])] (nm "a") [2],
   reregistration_replaces.2.1 [(nm "a", [1]), (nm "b", [9])] (nm "a") (nm "b") [2]
     (by decide),
   (reregistration_replaces.2.2.1 [(nm "a", [1]), (nm "b", [9])] (nm "a") [2]
     (by rw [storeWF]; decide)).2.2,
   reregistration_replaces.2.2.2.1 [(nm "a", [1]), (nm "b", [9])] (nm "a") [2],
   (reregistration_replaces.2.2.2.2 (nm "a") [2] 1 demoS2 (by norm_num)).1⟩

/-! ## C8: rewind / position round trip -/

/-- C8.  With a track loaded, rewinding and then reading the position
gives 0 on both surfaces; on the tick surface rewind also zeroes the
accumulator, tick counter and total-rendered counter, so the position
the next compute derives restarts from zero. -/
theorem rewind_position_zero :
    (∀ (s : EmuState) (p : Player), s.player = some p →
      emu_get_current_position (emu_rewind s) = 0 ∧
      (emu_rewind s).sampleAccumulator = 0 ∧
      (emu_rewind s).currentTick = 0 ∧
      (emu_rewind s).totalSamplesGenerated = 0) ∧
    (∀ (s : MptState) (m : MptModule), s.module = some m →
      mpt_get_position_seconds (mpt_rewind s) = 0) := by
  constructor
  · intro s p hp
    simp [emu_rewind, emu_get_current_position, hp]
  · intro s m hm
    simp [mpt_rewind, mpt_get_position_seconds, hm]

/-- Witness for C8 on loaded sessions (`endS2` and `modState`). -/
theorem rewind_position_zero_witness :
    (emu_get_current_position (emu_rewind endS2) = 0 ∧
      (emu_rewind endS2).sampleAccumulator = 0 ∧
      (emu_rewind endS2).currentTick = 0 ∧
      (emu_rewind endS2).totalSamplesGenerated = 0) ∧
    mpt_get_position_seconds (mpt_rewind modState) = 0 :=
  ⟨rewind_position_zero.1 endS2 endPlayer rfl,
   rewind_position_zero.2 modState cexModule rfl⟩

/-! ## C9: metadata population, truncation and (non-)clearing -/

/-- Counterexample to C9 as stated: metadata text fields are NOT cleared
on teardown nor on a failed load, on either surface — prior contents
survive both. -/
theorem metadata_not_cleared_counterexample :
    (emu_teardown { emptyEmuState with title := nm "X" }).title = nm "X" ∧
    (mpt_teardown { emptyMptState with title := nm "X" }).title = nm "X" ∧
    (emu_load_file (some (nm "a")) (some [0]) 1 none
        { cexS1 with title := nm "X" }).2.title = nm "X" ∧
    (mpt_load_file (some (nm "a")) (some [0]) 1 none
        { emptyMptState with title := nm "X" }).2.title = nm "X" ∧
    nm "X" ≠ ([] : Name) := by
  refine ⟨rfl, rfl, rfl, rfl, by decide⟩

/-- C9 (amended).  Metadata fields are populated once per successful
load, truncated to their fixed capacities (255 characters for
title/author/artist/type, 1023 for the description) and never
overflowed.  They are NOT cleared by teardown or by a failed load on
either surface; only the frame-pull surface's init clears them. -/
theorem metadata_truncation :
    (∀ (fn : Name) (d : Bytes) (sz : ℤ) (p : Player) (s : EmuState),
      s.opl = true → 0 < sz →
      (emu_load_file (some fn) (some d) sz (some p) s).2.title
          = p.title.take EMU_TEXT_CAP ∧
      (emu_load_file (some fn) (some d) sz (some p) s).2.author
          = p.author.take EMU_TEXT_CAP ∧
      (emu_load_file (some fn) (some d) sz (some p) s).2.ptype
          = p.ptype.take EMU_TEXT_CAP ∧
      (emu_load_file (some fn) (some d) sz (some p) s).2.desc
          = p.desc.take EMU_DESC_CAP ∧
      (emu_load_file (some fn) (some d) sz (some p) s).2.title.length
          ≤ EMU_TEXT_CAP ∧
      (emu_load_file (some fn) (some d) sz (some p) s).2.desc.length
          ≤ EMU_DESC_CAP) ∧
    (∀ (fn : Option Name) (d : Bytes) (sz : ℤ) (m : MptModule) (s : MptState),
      0 < sz →
      (mpt_load_file fn (some d) sz (some m) s).2.title = mptMetaField m.mtitle ∧
      (mpt_load_file fn (some d) sz (some m) s).2.artist = mptMetaField m.martist ∧
      (mpt_load_file fn (some d) sz (some m) s).2.typeStr
          = mptMetaField m.mtypeLong ∧
      (mpt_load_file fn (some d) sz (some m) s).2.title.length ≤ MPT_TEXT_CAP) ∧
    (∀ v : Option Name, (mptMetaField v).length ≤ MPT_TEXT_CAP) ∧
    (∀ s : EmuState,
      (emu_teardown s).title = s.title ∧ (emu_teardown s).author = s.author ∧
      (emu_teardown s).ptype = s.ptype ∧ (emu_teardown s).desc = s.desc) ∧
    (∀ s : MptState,
      (mpt_teardown s).title = s.title ∧ (mpt_teardown s).artist = s.artist ∧
      (mpt_teardown s).typeStr = s.typeStr) ∧
    (∀ (fn : Option Name) (d : Option Bytes) (sz : ℤ) (s : EmuState),
      (emu_load_file fn d sz none s).2.title = s.title) ∧
    (∀ (fn : Option Name) (d : Option Bytes) (sz : ℤ) (s : MptState),
      (mpt_load_file fn d sz none s).2.title = s.title) ∧
    (∀ (sr : ℤ) (s : MptState),
      (mpt_init sr s).2.title = [] ∧ (mpt_init sr s).2.artist = [] ∧
      (mpt_init sr s).2.typeStr = []) := by
  refine ⟨?_, ?_, ?_, ?_, ?_, ?_, ?_, ?_⟩
  · intro fn d sz p s ho hsz
    have hg : ¬ (s.opl = false ∨ sz ≤ 0) := by
      push_neg
      exact ⟨by simp [ho], by linarith⟩
    simp only [emu_load_file, emu_add_file, if_neg hg,
      if_neg (by linarith : ¬ sz ≤ 0)]
    refine ⟨by trivial, by trivial, by trivial, by trivial, ?_, ?_⟩
    · simpa using List.length_take_le EMU_TEXT_CAP p.title
    · simpa using List.length_take_le EMU_DESC_CAP p.desc
  · intro fn d sz m s hsz
    simp only [mpt_load_file, if_neg (by linarith : ¬ sz ≤ 0)]
    refine ⟨by trivial, by trivial, by trivial, ?_⟩
    show (mptMetaField m.mtitle).length ≤ MPT_TEXT_CAP
    cases hv : m.mtitle with
    | none => simp [mptMetaField]
    | some t =>
      simp only [mptMetaField]
      simpa using List.length_take_le MPT_TEXT_CAP t
  · intro v
    cases v with
    | none => simp [mptMetaField]
    | some t =>
      simp only [mptMetaField]
      simpa using List.length_take_le MPT_TEXT_CAP t
  · intro s; exact ⟨rfl, rfl, rfl, rfl⟩
  · intro s; exact ⟨rfl, rfl, rfl⟩
  · intro fn d sz s
    cases fn with
    | none => rfl
    | some fn' =>
      cases d with
      | none => rfl
      | some d' =>
        simp only [emu_load_file]
        split
        · rfl
        · simp [emu_add_file]
          split <;> rfl
  · intro fn d sz s
    cases d with
    | none => rfl
    | some d' =>
      simp only [mpt_load_file]
      split <;> rfl
  · intro sr s; exact ⟨rfl, rfl, rfl⟩

/-- Witness for C9 (amended) at concrete inputs: a load whose player
reports a 300-character title stores exactly its first 255 characters. -/
theorem metadata_truncation_witness :
    ((emu_load_file (some (nm "a")) (some [0]) 1
        (some { demoPlayer with title := List.replicate 300 'x' }) cexS1).2.title
      = (List.replicate 300 'x').take EMU_TEXT_CAP ∧
     (emu_load_file (some (nm "a")) (some [0]) 1
        (some { demoPlayer with title := List.replicate 300 'x' }) cexS1).2.author
      = ([] : Name).take EMU_TEXT_CAP ∧
     (emu_load_file (some (nm "a")) (some [0]) 1
        (some { demoPlayer with title := List.replicate 300 'x' }) cexS1).2.ptype
      = ([] : Name).take EMU_TEXT_CAP ∧
     (emu_load_file (some (nm "a")) (some [0]) 1
        (some { demoPlayer with title := List.replicate 300 'x' }) cexS1).2.desc
      = ([] : Name).take EMU_DESC_CAP ∧
     (emu_load_file (some (nm "a")) (some [0]) 1
        (some { demoPlayer with title := List.replicate 300 'x' }) cexS1).2.title.length
      ≤ EMU_TEXT_CAP ∧
     (emu_load_file (some (nm "a")) (some [0]) 1
        (some { demoPlayer with title := List.replicate 300 'x' }) cexS1).2.desc.length
      ≤ EMU_DESC_CAP) ∧
    ((mpt_load_file none (some [0]) 1 (some cexModule) emptyMptState).2.title
      = mptMetaField cexModule.mtitle ∧
     (mpt_load_file none (some [0]) 1 (some cexModule) emptyMptState).2.artist
      = mptMetaField cexModule.martist ∧
     (mpt_load_file none (some [0]) 1 (some cexModule) emptyMptState).2.typeStr
      = mptMetaField cexModule.mtypeLong ∧
     (mpt_load_file none (some [0]) 1 (some cexModule) emptyMptState).2.title.length
      ≤ MPT_TEXT_CAP) :=
  ⟨metadata_truncation.1 (nm "a") [0] 1
      { demoPlayer with title := List.replicate 300 'x' } cexS1 rfl (by norm_num),
   metadata_truncation.2.1 none [0] 1 cexModule emptyMptState (by norm_num)⟩

/-! ## C10: seek's frame effect and its interaction with compute -/

/-- C10.  `emu_seek_position(ms)` changes only the player's internal
position and the reported position (set to `ms`), leaving accumulator,
tick counter and total-rendered counter unchanged; the next compute
that fills a full block overwrites the reported position with the value
derived solely from the cumulative rendered sample count — a formula in
which the seek target `ms` does not occur. -/
theorem seek_frame_effect (s : EmuState) (p : Player) (ms : ℕ)
    (hp : s.player = some p) :
    emu_seek_position ms s
      = { s with player := some { p with internalPos := ms },
                 currentPosition := ms } ∧
    emu_get_current_position (emu_seek_position ms s) = ms ∧
    (emu_seek_position ms s).sampleAccumulator = s.sampleAccumulator ∧
    (emu_seek_position ms s).currentTick = s.currentTick ∧
    (emu_seek_position ms s).totalSamplesGenerated = s.totalSamplesGenerated ∧
    (∀ (fuel : ℕ) (st : ℤ) (s' : EmuState), s.opl = true → s.audioBuffer = true →
      emu_compute_audio_samples fuel (emu_seek_position ms s) = some (st, s') →
      st = 0 →
      s'.currentPosition
        = (s.totalSamplesGenerated + AUDIO_BUFFER_SIZE) * 1000 / s.sampleRate) := by
  have hseek : emu_seek_position ms s
      = { s with player := some { p with internalPos := ms },
                 currentPosition := ms } := by
    simp [emu_seek_position, hp]
  refine ⟨hseek, by rw [hseek]; rfl, by rw [hseek], by rw [hseek], by rw [hseek], ?_⟩
  intro fuel st s' ho hb hc h0
  rw [hseek] at hc
  have hspec := computePositionSpec
    { s with player := some { p with internalPos := ms }, currentPosition := ms }
    { p with internalPos := ms } fuel st s' rfl (by simpa using ho)
    (by simpa using hb) hc
  obtain ⟨htot, hpos⟩ := hspec.1 h0
  rw [hpos, htot]

/-- State after a full block computed right after `seekMs(5000)` on the
demo session: the position is re-derived from the 512 cumulative
samples, not from the 5000 ms seek target. -/
def seekS3 : EmuState :=
  { demoS2 with player := some { demoPlayer with internalPos := 5000 },
                sampleAccumulator := 49204, currentTick := 1,
                totalSamplesGenerated := 512,
                currentPosition := positionMsOf 512 49716,
                audioBufferLength := 2048 }

theorem seek_compute :
    emu_compute_audio_samples 2 (emu_seek_position 5000 demoS2)
      = some (0, seekS3) := by
  have h := emu_compute_of_loop_full (emu_seek_position 5000 demoS2)
    { demoPlayer with internalPos := 5000 } 2 ⟨512, 49204, 1⟩ rfl rfl rfl
    (by exact demo_loop)
  rw [h]
  rfl

/-- Witness for C10 on the demo session with seek target 5000 ms. -/
theorem seek_frame_effect_witness :
    emu_seek_position 5000 demoS2
      = { demoS2 with player := some { demoPlayer with internalPos := 5000 },
                      currentPosition := 5000 } ∧
    emu_get_current_position (emu_seek_position 5000 demoS2) = 5000 ∧
    (emu_seek_position 5000 demoS2).sampleAccumulator
      = demoS2.sampleAccumulator ∧
    (emu_seek_position 5000 demoS2).currentTick = demoS2.currentTick ∧
    (emu_seek_position 5000 demoS2).totalSamplesGenerated
      = demoS2.totalSamplesGenerated ∧
    seekS3.currentPosition
      = (demoS2.totalSamplesGenerated + AUDIO_BUFFER_SIZE) * 1000
          / demoS2.sampleRate :=
  ⟨(seek_frame_effect demoS2 demoPlayer 5000 rfl).1,
   (seek_frame_effect demoS2 demoPlayer 5000 rfl).2.1,
   (seek_frame_effect demoS2 demoPlayer 5000 rfl).2.2.1,
   (seek_frame_effect demoS2 demoPlayer 5000 rfl).2.2.2.1,
   (seek_frame_effect demoS2 demoPlayer 5000 rfl).2.2.2.2.1,
   (seek_frame_effect demoS2 demoPlayer 5000 rfl).2.2.2.2.2 2 0 seekS3
     rfl rfl seek_compute rfl⟩
